import Mathlib

/-!
# Focus180 session timer engine — verification development

Shallow embedding of the Pomodoro session timer engine of the focus180
repository: the segment sequencer hook (`usePomodoroTimer.ts`), the
orchestrating component (`PomodoroTimer.tsx`), the cross-device session
mirror (`activeSessions.ts`), and the schedule segment builder
(`buildPomodoroSegmentsForDay`).

Wall-clock instants are modelled as integers in milliseconds (JavaScript
`Date.now()` / `Timestamp.toMillis()`); `Math.floor` of a millisecond
difference divided by 1000 is `Int.fdiv _ 1000`, which floors toward
negative infinity exactly as `Math.floor` does.
-/

namespace Focus180

/-- Segment kind: `'work' | 'break'` from `FocusSegment` in `usePomodoroTimer.ts`. -/
inductive SegType where
  | work
  | brk
deriving DecidableEq, Repr

/-- `FocusSegment` — `{ type: 'work' | 'break', minutes: number }`. -/
structure FocusSegment where
  type : SegType
  minutes : Nat
deriving DecidableEq, Repr

instance : Inhabited FocusSegment := ⟨⟨SegType.work, 0⟩⟩

/-- `PomodoroTimerState` from `usePomodoroTimer.ts` (the React state of the hook). -/
structure TimerState where
  currentIndex : Nat
  secondsRemaining : Int
  isRunning : Bool
  isFinished : Bool
  completedSegments : List Nat
deriving DecidableEq, Repr

/-- Callback invocations the hook can emit during one operation:
`onSegmentComplete(index, segment)` and `onWorkSegmentStart(index, segment)`. -/
inductive TimerEvent where
  | completion (idx : Nat) (seg : FocusSegment)
  | workStart (idx : Nat) (seg : FocusSegment)
deriving DecidableEq, Repr

/-- Is this event an invocation of the completion/logging callback? -/
def TimerEvent.isCompletion : TimerEvent → Bool
  | .completion _ _ => true
  | .workStart _ _ => false

/-- Initial hook state: `currentIndex = 0`,
`secondsRemaining = segments.length > 0 ? segments[0].minutes * 60 : 0`,
not running, not finished, no completed segments. -/
def initState (segments : List FocusSegment) : TimerState :=
  { currentIndex := 0
    secondsRemaining :=
      match segments with
      | [] => 0
      | seg :: _ => (seg.minutes : Int) * 60
    isRunning := false
    isFinished := false
    completedSegments := [] }

/-- `start`: no-op when finished; otherwise sets `isRunning := true` and
fires `onWorkSegmentStart` when the current segment is a work segment. -/
def startOp (segments : List FocusSegment) (s : TimerState) :
    TimerState × List TimerEvent :=
  if s.isFinished then (s, [])
  else
    ({ s with isRunning := true },
      match segments[s.currentIndex]? with
      | some seg =>
          if seg.type = SegType.work then [.workStart s.currentIndex seg] else []
      | none => [])

/-- `pause`: sets `isRunning := false`. -/
def pauseOp (s : TimerState) : TimerState × List TimerEvent :=
  ({ s with isRunning := false }, [])

/-- `resume`: sets `isRunning := true` unless finished. -/
def resumeOp (s : TimerState) : TimerState × List TimerEvent :=
  if s.isFinished then (s, []) else ({ s with isRunning := true }, [])

/-- `reset`: back to index 0, full duration, not running, not finished,
completed segments cleared. -/
def resetOp (segments : List FocusSegment) : TimerState × List TimerEvent :=
  (initState segments, [])

/-- One firing of the 1-second interval: the interval only exists while
`isRunning && secondsRemaining > 0`, and its body is
`prev <= 1 ? 0 : prev - 1`. -/
def tick (s : TimerState) : TimerState :=
  if s.isRunning ∧ 0 < s.secondsRemaining then
    { s with secondsRemaining := if s.secondsRemaining ≤ 1 then 0 else s.secondsRemaining - 1 }
  else s

/-- The segment-completion effect of the hook: when `isRunning && secondsRemaining === 0`,
append the current index to `completedSegments`, invoke `onSegmentComplete`,
then either advance to the next segment at full duration and auto-start it
(firing `onWorkSegmentStart` if it is a work segment) or finish. -/
def completionEffect (segments : List FocusSegment) (s : TimerState) :
    TimerState × List TimerEvent :=
  if s.isRunning ∧ s.secondsRemaining = 0 then
    let completedIndex := s.currentIndex
    let completedSeg := segments.getD completedIndex default
    let s1 := { s with completedSegments := s.completedSegments ++ [completedIndex] }
    if s.currentIndex < segments.length - 1 then
      let nextIndex := s.currentIndex + 1
      let nextSeg := segments.getD nextIndex default
      ({ s1 with
          currentIndex := nextIndex
          secondsRemaining := (nextSeg.minutes : Int) * 60
          isRunning := true },
        .completion completedIndex completedSeg ::
          (if nextSeg.type = SegType.work then [.workStart nextIndex nextSeg] else []))
    else
      ({ s1 with isRunning := false, isFinished := true },
        [.completion completedIndex completedSeg])
  else (s, [])

/-- `skipSegment`: no-op when finished; otherwise marks the current index
completed (if not already), then advances to the next segment at its full
duration without touching `isRunning` — firing `onWorkSegmentStart` only if
running and the next segment is work — or finishes when no next segment
exists.  It never invokes `onSegmentComplete`. -/
def skipSegment (segments : List FocusSegment) (s : TimerState) :
    TimerState × List TimerEvent :=
  if s.isFinished then (s, [])
  else
    let s1 :=
      if s.currentIndex ∈ s.completedSegments then s
      else { s with completedSegments := s.completedSegments ++ [s.currentIndex] }
    if s.currentIndex < segments.length - 1 then
      let nextIndex := s.currentIndex + 1
      let nextSeg := segments.getD nextIndex default
      ({ s1 with
          currentIndex := nextIndex
          secondsRemaining := (nextSeg.minutes : Int) * 60 },
        if s.isRunning ∧ nextSeg.type = SegType.work then [.workStart nextIndex nextSeg]
        else [])
    else ({ s1 with isRunning := false, isFinished := true }, [])

/-- `goToSegment(index)`: no-op when `index < 0 || index >= segments.length`;
otherwise jumps to that segment at full duration, not running, not finished,
leaving `completedSegments` untouched. -/
def goToSegment (segments : List FocusSegment) (idx : Int) (s : TimerState) : TimerState :=
  if idx < 0 ∨ (segments.length : Int) ≤ idx then s
  else
    { s with
        currentIndex := idx.toNat
        secondsRemaining := ((segments.getD idx.toNat default).minutes : Int) * 60
        isRunning := false
        isFinished := false }

/-! ## Remote session mirror (`src/lib/firestore/activeSessions.ts`) -/

/-- `SessionStatus = 'running' | 'paused' | 'stopped'`. -/
inductive SessionStatus where
  | running
  | paused
  | stopped
deriving DecidableEq, Repr

/-- `ActiveSessionState` — the shared per-user Firestore record.  Timestamps
are in milliseconds. -/
structure ActiveSessionState where
  planId : String
  dayId : String
  date : String
  segmentIndex : Nat
  segmentType : SegType
  segmentPlannedMinutes : Nat
  status : SessionStatus
  startedAt : Option Int
  pausedAt : Option Int
  accumulatedSeconds : Int
  lastUpdatedAt : Int
  deviceId : String
deriving DecidableEq, Repr

/-- `calculateRemainingSeconds(sessionState, plannedSeconds)` with the
follower's `Date.now()` made an explicit `now` argument:
stopped ↦ `plannedSeconds`; paused ↦ `max(0, plannedSeconds - accumulatedSeconds)`;
running with `startedAt` ↦ `max(0, plannedSeconds - Math.floor((now - startedAt)/1000))`;
running without `startedAt` ↦ fall back to `accumulatedSeconds`. -/
def calculateRemainingSeconds (sessionState : ActiveSessionState)
    (plannedSeconds : Int) (now : Int) : Int :=
  if sessionState.status = SessionStatus.stopped then plannedSeconds
  else if sessionState.status = SessionStatus.paused then
    max 0 (plannedSeconds - sessionState.accumulatedSeconds)
  else
    match sessionState.startedAt with
    | some startedAtMs =>
        max 0 (plannedSeconds - (now - startedAtMs).fdiv 1000)
    | none => max 0 (plannedSeconds - sessionState.accumulatedSeconds)

/-- The snapshot the subscription handler in `TimerDisplay` hands to the
sequencer via `externalUpdateRef`. -/
structure ExternalSnapshot where
  currentIndex : Nat
  secondsRemaining : Int
  isRunning : Bool
  isFinished : Bool
deriving DecidableEq, Repr

/-- Modelled from the spec: `applyExternal` of the SegmentSequencer hook is
not present in the sources (only its caller in `PomodoroTimer.tsx` is).  Per
§4.1 it "overwrites any subset of the snapshot fields from an out-of-band
source"; the caller's chosen subset is `currentIndex`, `secondsRemaining`,
`isRunning` and `isFinished` — `completedSegments` is explicitly not synced
("We don't sync completed segments, they're local"). -/
def applyExternal (s : TimerState) (u : ExternalSnapshot) : TimerState :=
  { s with
      currentIndex := u.currentIndex
      secondsRemaining := u.secondsRemaining
      isRunning := u.isRunning
      isFinished := u.isFinished }

/-- The external-update path of `TimerDisplay`'s Firestore subscription,
after its plan/day and echo guards have passed: compute
`remainingSeconds = calculateRemainingSeconds(remoteState, segmentPlannedMinutes*60)`
and overwrite the sequencer state. -/
def externalUpdate (r : ActiveSessionState) (now : Int) (s : TimerState) : TimerState :=
  applyExternal s
    { currentIndex := r.segmentIndex
      secondsRemaining :=
        calculateRemainingSeconds r ((r.segmentPlannedMinutes : Int) * 60) now
      isRunning := decide (r.status = SessionStatus.running)
      isFinished := false }

/-! ## Local persistence and resume (`PomodoroTimer.tsx` + session persistence) -/

/-- `PersistedSessionState` — the localStorage snapshot (identity fields plus
sequencer state; `lastUpdatedAt` is `Date.now()` milliseconds). -/
structure PersistedSessionState where
  userId : String
  planId : String
  dayId : String
  date : String
  segmentIndex : Nat
  segmentType : SegType
  segmentPlannedMinutes : Nat
  secondsRemaining : Int
  isRunning : Bool
  lastUpdatedAt : Int
deriving DecidableEq, Repr

/-- The identity check `PomodoroTimer` performs before offering a resume:
the persisted snapshot must match the current `planId`, `dayId` and `date`. -/
def matchesContext (p : PersistedSessionState) (planId dayId date : String) : Bool :=
  p.planId == planId && p.dayId == dayId && p.date == date

/-- Modelled from the spec: `calculateEffectiveSecondsRemaining` lives in the
session-persistence module, which is not among the sources (only its caller
`PomodoroTimer.tsx` is).  Per §4.4: "if the persisted state was running,
subtract the time elapsed since `lastUpdatedAt` from `secondsRemaining`
(floor at 0); if it was paused, use the stored value unchanged." -/
def calculateEffectiveSecondsRemaining (p : PersistedSessionState) (now : Int) : Int :=
  if p.isRunning then
    max 0 (p.secondsRemaining - (now - p.lastUpdatedAt).fdiv 1000)
  else p.secondsRemaining

/-- The initial options `handleResume` hands to the sequencer. -/
structure InitialTimerOptions where
  initialSegmentIndex : Nat
  initialSecondsRemaining : Int
  initialIsRunning : Bool
deriving DecidableEq, Repr

/-- `handleResume` in `PomodoroTimer.tsx`: hydrate the sequencer at the
persisted segment index with the computed effective remaining seconds, in a
paused state (`initialIsRunning: false`). -/
def handleResume (p : PersistedSessionState) (now : Int) : InitialTimerOptions :=
  { initialSegmentIndex := p.segmentIndex
    initialSecondsRemaining := calculateEffectiveSecondsRemaining p now
    initialIsRunning := false }

/-! ## Completion logging (`handleSegmentComplete` in `PomodoroTimer.tsx`) -/

/-- A durable session-log entry, the payload of `logCompletedWorkSegment`. -/
structure SessionLogEntry where
  segmentIndex : Nat
  plannedMinutes : Nat
  actualSeconds : Int
  startedAt : Int
  endedAt : Int
deriving DecidableEq, Repr

/-- Environment of one `handleSegmentComplete` invocation:
the start instant recorded for this index (from `segmentStartTimesRef`),
the completion instant (`new Date()`), and whether the durable write
(`logCompletedWorkSegment`) succeeds. -/
structure CompleteEnv where
  startTime : Option Int
  endTime : Int
  writeSucceeds : Bool
deriving DecidableEq, Repr

/-- Observable outcome of one `handleSegmentComplete` invocation:
the new `loggedSegmentIndices`, the durable entries actually written,
the number of `markDayCompleted` invocations, and whether the logging-error
flag was raised. -/
structure CompleteResult where
  logged : List Nat
  writtenEntries : List SessionLogEntry
  dayCompletionCalls : Nat
  loggingError : Bool
deriving DecidableEq, Repr

/-- `handleSegmentComplete(segmentIndex, segment)`: ignore break segments;
no-op when the index is already in `loggedSegmentIndices`; bail out when no
start time was recorded; compute
`actualSeconds = min(Math.floor((end - start)/1000), minutes*60)`; reject it
outside `[0, minutes*120]`; otherwise attempt the durable write, and only on
success mark the index logged and — when this is the day's last segment —
trigger day completion. -/
def handleSegmentComplete (segments : List FocusSegment) (segmentIndex : Nat)
    (segment : FocusSegment) (logged : List Nat) (env : CompleteEnv) :
    CompleteResult :=
  let isLastSegment : Bool := (segmentIndex : Int) == (segments.length : Int) - 1
  if segment.type ≠ SegType.work then
    { logged := logged, writtenEntries := [], dayCompletionCalls := 0, loggingError := false }
  else if segmentIndex ∈ logged then
    { logged := logged, writtenEntries := [], dayCompletionCalls := 0, loggingError := false }
  else
    match env.startTime with
    | none =>
        { logged := logged, writtenEntries := [], dayCompletionCalls := 0, loggingError := false }
    | some startMs =>
        let elapsedSeconds : Int := (env.endTime - startMs).fdiv 1000
        let plannedSeconds : Int := (segment.minutes : Int) * 60
        let actualSeconds : Int := min elapsedSeconds plannedSeconds
        if actualSeconds < 0 ∨ (segment.minutes : Int) * 120 < actualSeconds then
          { logged := logged, writtenEntries := [], dayCompletionCalls := 0, loggingError := true }
        else if env.writeSucceeds then
          { logged := logged ++ [segmentIndex]
            writtenEntries := [{ segmentIndex := segmentIndex
                                 plannedMinutes := segment.minutes
                                 actualSeconds := actualSeconds
                                 startedAt := startMs
                                 endedAt := env.endTime }]
            dayCompletionCalls := if isLastSegment then 1 else 0
            loggingError := false }
        else
          { logged := logged, writtenEntries := [], dayCompletionCalls := 0, loggingError := true }

/-! ## Schedule segment builder (`buildPomodoroSegmentsForDay`) -/

/-- `buildPomodoroSegmentsForDay(totalMinutes)`: below 20 minutes a single
work segment with no breaks; otherwise `N = max(1, ceil(totalMinutes/25))`
work segments of `base = totalMinutes / N` minutes (the first
`totalMinutes % N` of them get one extra minute) with 5-minute breaks
between consecutive work segments. -/
def buildPomodoroSegmentsForDay (totalMinutes : Nat) : List FocusSegment :=
  if totalMinutes < 20 then [⟨SegType.work, totalMinutes⟩]
  else
    let N := max 1 ((totalMinutes + 24) / 25)
    let base := totalMinutes / N
    let remainder := totalMinutes % N
    ((List.range N).map (fun i =>
      FocusSegment.mk SegType.work (if i < remainder then base + 1 else base) ::
        (if i < N - 1 then [⟨SegType.brk, 5⟩] else []))).flatten

/-- `getTotalWorkMinutes` (test helper in the sources): sum of the minutes of
the work segments. -/
def getTotalWorkMinutes (segments : List FocusSegment) : Nat :=
  ((segments.filter (fun s => s.type == SegType.work)).map (·.minutes)).sum

/-! ## The operation alphabet and reachability -/

/-- One operation of the orchestrated timer, as listed by the spec:
the sequencer controls, one interval tick, the completion effect,
`goToSegment`, and an external update from the remote mirror observed at
local instant `now`. -/
inductive Act where
  | start
  | pause
  | resume
  | reset
  | tick
  | complete
  | skip
  | goTo (idx : Int)
  | external (r : ActiveSessionState) (now : Int)

/-- State transformer of one operation. -/
def applyAct (segments : List FocusSegment) : Act → TimerState → TimerState
  | Act.start, s => (startOp segments s).1
  | Act.pause, s => (pauseOp s).1
  | Act.resume, s => (resumeOp s).1
  | Act.reset, _ => (resetOp segments).1
  | Act.tick, s => tick s
  | Act.complete, s => (completionEffect segments s).1
  | Act.skip, s => (skipSegment segments s).1
  | Act.goTo idx, s => goToSegment segments idx s
  | Act.external r now, s => externalUpdate r now s

/-- A remote record that passed the subscription's plan/day guard was written
by the protocol's write path for this same day's segment list: its index is
in range, its planned minutes are that segment's minutes, and its
accumulated seconds are non-negative. -/
def RecordForDay (segments : List FocusSegment) (r : ActiveSessionState) : Prop :=
  r.segmentIndex < segments.length ∧
    r.segmentPlannedMinutes = (segments.getD r.segmentIndex default).minutes ∧
    0 ≤ r.accumulatedSeconds

instance (segments : List FocusSegment) (r : ActiveSessionState) :
    Decidable (RecordForDay segments r) := by
  unfold RecordForDay; infer_instance

/-- The record's recorded start instant does not lie in the observing
device's future (no cross-device clock skew at the observation). -/
def NoSkew (r : ActiveSessionState) (now : Int) : Prop :=
  ∀ t, r.startedAt = some t → t ≤ now

instance (r : ActiveSessionState) (now : Int) : Decidable (NoSkew r now) := by
  unfold NoSkew
  cases r.startedAt with
  | none => exact isTrue (by intro t h; cases h)
  | some t =>
      exact decidable_of_iff (t ≤ now)
        ⟨fun h u hu => by cases hu; exact h, fun h => h t rfl⟩

/-- States reachable from the initial state by the operation set the spec
lists — `start`, `pause`, `resume`, `reset`, `skip`, `tick` (with its
completion effect) and the external-update path, the latter fed with any
record of this day's session (clock skew between devices allowed). -/
inductive Reachable (segments : List FocusSegment) : TimerState → Prop
  | init : Reachable segments (initState segments)
  | step_start {s} : Reachable segments s →
      Reachable segments (applyAct segments Act.start s)
  | step_pause {s} : Reachable segments s →
      Reachable segments (applyAct segments Act.pause s)
  | step_resume {s} : Reachable segments s →
      Reachable segments (applyAct segments Act.resume s)
  | step_reset {s} : Reachable segments s →
      Reachable segments (applyAct segments Act.reset s)
  | step_tick {s} : Reachable segments s →
      Reachable segments (applyAct segments Act.tick s)
  | step_complete {s} : Reachable segments s →
      Reachable segments (applyAct segments Act.complete s)
  | step_skip {s} : Reachable segments s →
      Reachable segments (applyAct segments Act.skip s)
  | step_external {s} (r : ActiveSessionState) (now : Int) :
      Reachable segments s → RecordForDay segments r →
      Reachable segments (applyAct segments (Act.external r now) s)

/-- Same reachable-state relation, but every external update observes a
record whose start instant is not in the observer's future. -/
inductive ReachableSync (segments : List FocusSegment) : TimerState → Prop
  | init : ReachableSync segments (initState segments)
  | step_start {s} : ReachableSync segments s →
      ReachableSync segments (applyAct segments Act.start s)
  | step_pause {s} : ReachableSync segments s →
      ReachableSync segments (applyAct segments Act.pause s)
  | step_resume {s} : ReachableSync segments s →
      ReachableSync segments (applyAct segments Act.resume s)
  | step_reset {s} : ReachableSync segments s →
      ReachableSync segments (applyAct segments Act.reset s)
  | step_tick {s} : ReachableSync segments s →
      ReachableSync segments (applyAct segments Act.tick s)
  | step_complete {s} : ReachableSync segments s →
      ReachableSync segments (applyAct segments Act.complete s)
  | step_skip {s} : ReachableSync segments s →
      ReachableSync segments (applyAct segments Act.skip s)
  | step_external {s} (r : ActiveSessionState) (now : Int) :
      ReachableSync segments s → RecordForDay segments r → NoSkew r now →
      ReachableSync segments (applyAct segments (Act.external r now) s)

/-- The spec's sequencer invariant: the current index addresses a segment and
the remaining seconds are between 0 and that segment's full duration. -/
def TimerInv (segments : List FocusSegment) (s : TimerState) : Prop :=
  s.currentIndex < segments.length ∧
    0 ≤ s.secondsRemaining ∧
    s.secondsRemaining ≤ ((segments.getD s.currentIndex default).minutes : Int) * 60

/-! ## Concrete example inputs -/

/-- A one-segment day: a single 25-minute work segment. -/
def daySingle25 : List FocusSegment := [⟨SegType.work, 25⟩]

/-- A 25-minute work segment started at `T0 = 0` and still running. -/
def recRunningAtT0 : ActiveSessionState :=
  { planId := "plan1", dayId := "day1", date := "2025-01-01"
    segmentIndex := 0, segmentType := SegType.work, segmentPlannedMinutes := 25
    status := SessionStatus.running, startedAt := some 0, pausedAt := none
    accumulatedSeconds := 0, lastUpdatedAt := 0, deviceId := "deviceA" }

/-- The same segment paused at `T0 + 600` with 600 accumulated seconds. -/
def recPausedAt600 : ActiveSessionState :=
  { recRunningAtT0 with
      status := SessionStatus.paused
      startedAt := none
      pausedAt := some 600000
      accumulatedSeconds := 600 }

/-- A running record whose `startedAt` lies 5 seconds in the observer's
future (cross-device clock skew). -/
def recSkewedStart : ActiveSessionState :=
  { recRunningAtT0 with startedAt := some 5000 }

/-- A running record with `startedAt` missing, violating the record
invariant `startedAt != null ⇔ status == running`. -/
def recRunningNoStart : ActiveSessionState :=
  { recRunningAtT0 with startedAt := none, accumulatedSeconds := 300 }

/-- A persisted snapshot saved running with 400 seconds remaining at `T = 0`. -/
def persistedRunning400 : PersistedSessionState :=
  { userId := "user1", planId := "plan1", dayId := "day1", date := "2025-01-01"
    segmentIndex := 0, segmentType := SegType.work, segmentPlannedMinutes := 25
    secondsRemaining := 400, isRunning := true, lastUpdatedAt := 0 }

/-- A completion environment whose wall-clock elapsed time (2000 s) exceeds
the 25-minute planned duration, with a successful durable write. -/
def envOvertime : CompleteEnv :=
  { startTime := some 0, endTime := 2000000, writeSucceeds := true }

/-! ## C6 — follower arithmetic of `calculateRemainingSeconds` -/

/-- C6: for every incoming remote session record the follower computes the
remaining seconds from timestamps, not from a ticking counter: running
records yield `max 0 (plannedSeconds - floor((now - startedAt)/1000))`,
paused records yield `max 0 (plannedSeconds - accumulatedSeconds)`, and
stopped records yield `plannedSeconds`. -/
theorem calculateRemainingSeconds_spec (r : ActiveSessionState) (p now : Int) :
    (r.status = SessionStatus.stopped → calculateRemainingSeconds r p now = p) ∧
    (r.status = SessionStatus.paused →
      calculateRemainingSeconds r p now = max 0 (p - r.accumulatedSeconds)) ∧
    (∀ t, r.status = SessionStatus.running → r.startedAt = some t →
      calculateRemainingSeconds r p now = max 0 (p - (now - t).fdiv 1000)) := by
  refine ⟨fun h => ?_, fun h => ?_, fun t h ht => ?_⟩
  · simp [calculateRemainingSeconds, h]
  · simp [calculateRemainingSeconds, h]
  · simp [calculateRemainingSeconds, h, ht]

/-- C6 witness: a 25-minute segment started at `T0 = 0` observed at
`T0 + 600` seconds yields 900 remaining; the matching pause record with
`accumulatedSeconds = 600` also yields 900. -/
theorem calculateRemainingSeconds_spec_witness :
    calculateRemainingSeconds recRunningAtT0 1500 600000 = 900 ∧
    calculateRemainingSeconds recPausedAt600 1500 600000 = 900 := by
  constructor
  · have h := (calculateRemainingSeconds_spec recRunningAtT0 1500 600000).2.2 0 rfl rfl
    rw [h]; decide
  · have h := (calculateRemainingSeconds_spec recPausedAt600 1500 600000).2.1 rfl
    rw [h]; decide

/-! ## C10 — totality of `calculateRemainingSeconds` on invariant-violating records -/

/-- C10: `calculateRemainingSeconds` is total on records violating
`startedAt != null ⇔ status == running`: a running record without
`startedAt` falls back to `max 0 (plannedSeconds - accumulatedSeconds)`,
and for non-negative `plannedSeconds` with status running or paused the
result is never negative. -/
theorem calculateRemainingSeconds_fallback_total (r : ActiveSessionState) (p now : Int) :
    (r.status = SessionStatus.running → r.startedAt = none →
      calculateRemainingSeconds r p now = max 0 (p - r.accumulatedSeconds)) ∧
    (0 ≤ p → (r.status = SessionStatus.running ∨ r.status = SessionStatus.paused) →
      0 ≤ calculateRemainingSeconds r p now) := by
  constructor
  · intro h ht
    simp [calculateRemainingSeconds, h, ht]
  · intro _ hst
    rcases hst with h | h <;>
      simp only [calculateRemainingSeconds, h] <;>
      [skip; simp] <;>
      cases r.startedAt <;> simp

/-- C10 witness: the invariant-violating record (running, `startedAt = null`,
`accumulatedSeconds = 300`) evaluates to `1500 - 300 = 1200 ≥ 0`. -/
theorem calculateRemainingSeconds_fallback_total_witness :
    calculateRemainingSeconds recRunningNoStart 1500 0 = 1200 ∧
    0 ≤ calculateRemainingSeconds recRunningNoStart 1500 0 := by
  have h := (calculateRemainingSeconds_fallback_total recRunningNoStart 1500 0).1 rfl rfl
  have h2 := (calculateRemainingSeconds_fallback_total recRunningNoStart 1500 0).2
    (by norm_num) (Or.inl rfl)
  refine ⟨?_, h2⟩
  rw [h]; decide

/-! ## C7 — resume arithmetic -/

/-- C7: for a persisted snapshot whose identity matches the current context,
a snapshot saved running resumes at
`max 0 (secondsRemaining - floor((now - lastUpdatedAt)/1000))`, a snapshot
saved paused resumes at the stored value unchanged, and `handleResume`
hydrates the sequencer at that value in a paused state. -/
theorem handleResume_spec (p : PersistedSessionState) (planId dayId date : String)
    (now : Int) (hmatch : matchesContext p planId dayId date = true) :
    (p.isRunning = true →
      handleResume p now =
        { initialSegmentIndex := p.segmentIndex
          initialSecondsRemaining :=
            max 0 (p.secondsRemaining - (now - p.lastUpdatedAt).fdiv 1000)
          initialIsRunning := false }) ∧
    (p.isRunning = false →
      handleResume p now =
        { initialSegmentIndex := p.segmentIndex
          initialSecondsRemaining := p.secondsRemaining
          initialIsRunning := false }) := by
  constructor <;> intro h <;>
    simp [handleResume, calculateEffectiveSecondsRemaining, h]

/-- C7 witness: the snapshot `{secondsRemaining = 400, isRunning = true,
lastUpdatedAt = T = 0}` reloaded at `T + 130` seconds resumes at 270,
paused. -/
theorem handleResume_spec_witness :
    handleResume persistedRunning400 130000 =
      { initialSegmentIndex := 0, initialSecondsRemaining := 270
        initialIsRunning := false } := by
  have h := (handleResume_spec persistedRunning400 "plan1" "day1" "2025-01-01" 130000
    (by decide)).1 rfl
  rw [h]; decide

/-! ## C9 — `goToSegment` -/

/-- C9: `goToSegment(index)` leaves the whole state unchanged for any index
outside `[0, segments.length)`, and for an in-range index jumps to that
segment at full duration with `isRunning = false` and `isFinished = false`,
without touching `completedSegments`. -/
theorem goToSegment_spec (segments : List FocusSegment) (s : TimerState) (idx : Int) :
    ((idx < 0 ∨ (segments.length : Int) ≤ idx) → goToSegment segments idx s = s) ∧
    (0 ≤ idx → idx < (segments.length : Int) →
      goToSegment segments idx s =
        { currentIndex := idx.toNat
          secondsRemaining := ((segments.getD idx.toNat default).minutes : Int) * 60
          isRunning := false
          isFinished := false
          completedSegments := s.completedSegments }) := by
  constructor
  · intro h
    simp [goToSegment, h]
  · intro h1 h2
    have hcond : ¬(idx < 0 ∨ (segments.length : Int) ≤ idx) := by omega
    simp [goToSegment, hcond]

/-- C9 witness: on the one-segment day, `goToSegment 5` is a no-op and
`goToSegment 0` jumps to segment 0 at 1500 seconds, stopped. -/
theorem goToSegment_spec_witness :
    goToSegment daySingle25 5 (initState daySingle25) = initState daySingle25 ∧
    goToSegment daySingle25 0
        { initState daySingle25 with secondsRemaining := 7, isRunning := true } =
      { currentIndex := 0, secondsRemaining := 1500, isRunning := false
        isFinished := false, completedSegments := [] } := by
  constructor
  · exact (goToSegment_spec daySingle25 (initState daySingle25) 5).1 (by decide)
  · have h := (goToSegment_spec daySingle25
      { initState daySingle25 with secondsRemaining := 7, isRunning := true } 0).2
      (by decide) (by decide)
    rw [h]; decide

/-! ## C2 — cap law for natural completion logging -/

/-- C2: every entry durably written by `handleSegmentComplete` carries
`actualSeconds = min(floor(elapsed ms / 1000), plannedMinutes*60)`, so a
logged `actualSeconds` never exceeds `plannedMinutes*60` even when the
wall-clock elapsed time does. -/
theorem handleSegmentComplete_cap (segments : List FocusSegment) (segmentIndex : Nat)
    (segment : FocusSegment) (logged : List Nat) (env : CompleteEnv)
    (e : SessionLogEntry)
    (he : e ∈ (handleSegmentComplete segments segmentIndex segment logged env).writtenEntries) :
    (∃ startMs, env.startTime = some startMs ∧
      e.plannedMinutes = segment.minutes ∧
      e.actualSeconds =
        min ((env.endTime - startMs).fdiv 1000) ((segment.minutes : Int) * 60)) ∧
    e.actualSeconds ≤ (e.plannedMinutes : Int) * 60 := by
  by_cases hty : segment.type ≠ SegType.work
  · simp [handleSegmentComplete, hty] at he
  by_cases hmem : segmentIndex ∈ logged
  · simp [handleSegmentComplete, hty, hmem] at he
  rcases hst : env.startTime with _ | startMs
  · simp [handleSegmentComplete, hty, hmem, hst] at he
  simp only [handleSegmentComplete, hty, hmem, hst] at he
  split at he
  · simp at he
  split at he
  · simp at he
  split at he
  · simp at he
    subst he
    exact ⟨⟨startMs, rfl, rfl, rfl⟩, min_le_right _ _⟩
  · simp at he

/-- C2 witness: on the one-segment 25-minute day, a natural completion with
2000 s of wall-clock elapsed time logs `actualSeconds = 1500 = 25*60`, not
2000. -/
theorem handleSegmentComplete_cap_witness :
    (handleSegmentComplete daySingle25 0 ⟨SegType.work, 25⟩ [] envOvertime).writtenEntries =
      [{ segmentIndex := 0, plannedMinutes := 25, actualSeconds := 1500
         startedAt := 0, endedAt := 2000000 }] ∧
    ∀ e ∈ (handleSegmentComplete daySingle25 0 ⟨SegType.work, 25⟩ [] envOvertime).writtenEntries,
      e.actualSeconds ≤ (e.plannedMinutes : Int) * 60 := by
  constructor
  · decide
  · intro e he
    exact (handleSegmentComplete_cap daySingle25 0 ⟨SegType.work, 25⟩ [] envOvertime e he).2

/-! ## C3 — skip law -/

/-- C3: from any unfinished state, `skipSegment` emits no completion/logging
callback (whether running or paused); it marks the current index completed
for progress display, then advances to the next segment at its full duration
preserving `isRunning`, or finishes when no next segment exists. -/
theorem skipSegment_spec (segments : List FocusSegment) (s : TimerState)
    (h : s.isFinished = false) :
    (∀ e ∈ (skipSegment segments s).2, e.isCompletion = false) ∧
    s.currentIndex ∈ (skipSegment segments s).1.completedSegments ∧
    (s.currentIndex < segments.length - 1 →
      (skipSegment segments s).1.currentIndex = s.currentIndex + 1 ∧
      (skipSegment segments s).1.secondsRemaining =
        ((segments.getD (s.currentIndex + 1) default).minutes : Int) * 60 ∧
      (skipSegment segments s).1.isRunning = s.isRunning ∧
      (skipSegment segments s).1.isFinished = false) ∧
    (¬ s.currentIndex < segments.length - 1 →
      (skipSegment segments s).1.isFinished = true ∧
      (skipSegment segments s).1.isRunning = false) := by
  by_cases hmem : s.currentIndex ∈ s.completedSegments <;>
    by_cases hlt : s.currentIndex < segments.length - 1 <;>
      simp [skipSegment, h, hmem, hlt, TimerEvent.isCompletion]
  all_goals intro e h1 h2 h3
  all_goals subst h3
  all_goals rfl

/-- C3 witness: skipping the only segment of the one-segment day from the
fresh (paused, unfinished) state emits no completion event, marks index 0
completed, and finishes the session stopped. -/
theorem skipSegment_spec_witness :
    (∀ e ∈ (skipSegment daySingle25 (initState daySingle25)).2, e.isCompletion = false) ∧
    0 ∈ (skipSegment daySingle25 (initState daySingle25)).1.completedSegments ∧
    (skipSegment daySingle25 (initState daySingle25)).1.isFinished = true := by
  have hspec := skipSegment_spec daySingle25 (initState daySingle25) (by decide)
  refine ⟨hspec.1, hspec.2.1, (hspec.2.2.2 (by decide)).1⟩

/-! ## C1 — idempotent completion logging -/

/-- Case analysis of one `handleSegmentComplete` invocation: either it writes
nothing, leaves the logged set unchanged and triggers no day completion, or
the index was absent, the durable write succeeded, exactly one entry was
written, the index was appended, and day completion fired at most once. -/
lemma handleSegmentComplete_cases (segments : List FocusSegment) (i : Nat)
    (seg : FocusSegment) (logged : List Nat) (env : CompleteEnv) :
    ((handleSegmentComplete segments i seg logged env).logged = logged ∧
      (handleSegmentComplete segments i seg logged env).writtenEntries = [] ∧
      (handleSegmentComplete segments i seg logged env).dayCompletionCalls = 0) ∨
    (i ∉ logged ∧ env.writeSucceeds = true ∧
      (handleSegmentComplete segments i seg logged env).logged = logged ++ [i] ∧
      (handleSegmentComplete segments i seg logged env).writtenEntries.length = 1 ∧
      (handleSegmentComplete segments i seg logged env).dayCompletionCalls ≤ 1) := by
  by_cases hty : seg.type ≠ SegType.work
  · left; simp [handleSegmentComplete, hty]
  by_cases hmem : i ∈ logged
  · left; simp [handleSegmentComplete, hty, hmem]
  rcases hst : env.startTime with _ | t
  · left; simp [handleSegmentComplete, hty, hmem, hst]
  simp only [handleSegmentComplete, hty, hmem, hst]
  split
  · simp_all
  split
  · left; simp
  split
  · next hw =>
      right
      refine ⟨not_false, hw, by simp, by simp, ?_⟩
      simp only
      split <;> simp
  · left; simp

/-- An index already present in `loggedSegmentIndices` makes
`handleSegmentComplete` a complete no-op. -/
lemma handleSegmentComplete_noop_of_mem (segments : List FocusSegment) (i : Nat)
    (seg : FocusSegment) (logged : List Nat) (env : CompleteEnv)
    (hmem : i ∈ logged) :
    handleSegmentComplete segments i seg logged env =
      { logged := logged, writtenEntries := [], dayCompletionCalls := 0
        loggingError := false } := by
  by_cases hty : seg.type ≠ SegType.work
  · simp [handleSegmentComplete, hty]
  · simp [handleSegmentComplete, hty, hmem]

/-- C1: invoking the completion path twice with the same segment index
performs the durable write at most once and triggers day completion at most
once; an index already present in the logged set makes the call a no-op, and
an index becomes present only through a successful write. -/
theorem handleSegmentComplete_idempotent (segments : List FocusSegment)
    (segmentIndex : Nat) (segment : FocusSegment) (logged : List Nat)
    (env1 env2 : CompleteEnv) :
    ((handleSegmentComplete segments segmentIndex segment logged env1).writtenEntries.length +
        (handleSegmentComplete segments segmentIndex segment
          (handleSegmentComplete segments segmentIndex segment logged env1).logged
          env2).writtenEntries.length ≤ 1 ∧
      (handleSegmentComplete segments segmentIndex segment logged env1).dayCompletionCalls +
        (handleSegmentComplete segments segmentIndex segment
          (handleSegmentComplete segments segmentIndex segment logged env1).logged
          env2).dayCompletionCalls ≤ 1) ∧
    (segmentIndex ∈ logged →
      handleSegmentComplete segments segmentIndex segment logged env1 =
        { logged := logged, writtenEntries := [], dayCompletionCalls := 0
          loggingError := false }) ∧
    (∀ j, j ∈ (handleSegmentComplete segments segmentIndex segment logged env1).logged →
      j ∈ logged ∨
        (j = segmentIndex ∧ env1.writeSucceeds = true ∧
          (handleSegmentComplete segments segmentIndex segment logged env1).writtenEntries ≠ [])) := by
  have hc1 := handleSegmentComplete_cases segments segmentIndex segment logged env1
  refine ⟨⟨?_, ?_⟩,
    fun hmem => handleSegmentComplete_noop_of_mem segments segmentIndex segment logged env1 hmem,
    ?_⟩
  · rcases hc1 with ⟨hl, hw, _⟩ | ⟨_, _, hl, hw, _⟩
    · rw [hw]
      have hc2 := handleSegmentComplete_cases segments segmentIndex segment
        (handleSegmentComplete segments segmentIndex segment logged env1).logged env2
      rcases hc2 with ⟨_, hw2, _⟩ | ⟨_, _, _, hw2, _⟩ <;> simp [hw2]
    · have hmem2 : segmentIndex ∈
          (handleSegmentComplete segments segmentIndex segment logged env1).logged := by
        rw [hl]; simp
      rw [handleSegmentComplete_noop_of_mem segments segmentIndex segment _ env2 hmem2]
      simp [hw]
  · rcases hc1 with ⟨hl, _, hd⟩ | ⟨_, _, hl, _, hd⟩
    · rw [hd]
      have hc2 := handleSegmentComplete_cases segments segmentIndex segment
        (handleSegmentComplete segments segmentIndex segment logged env1).logged env2
      rcases hc2 with ⟨_, _, hd2⟩ | ⟨_, _, _, _, hd2⟩ <;> omega
    · have hmem2 : segmentIndex ∈
          (handleSegmentComplete segments segmentIndex segment logged env1).logged := by
        rw [hl]; simp
      rw [handleSegmentComplete_noop_of_mem segments segmentIndex segment _ env2 hmem2]
      simpa using hd
  · intro j hj
    rcases hc1 with ⟨hl, _, _⟩ | ⟨_, hws, hl, hw, _⟩
    · rw [hl] at hj
      exact Or.inl hj
    · rw [hl] at hj
      rcases List.mem_append.1 hj with hj' | hj'
      · exact Or.inl hj'
      · refine Or.inr ⟨by simpa using hj', hws, ?_⟩
        intro hnil
        rw [hnil] at hw
        simp at hw

/-- C1 witness: on the one-segment 25-minute day, a call with index 0
already logged is a no-op, and two consecutive invocations for index 0 write
one entry and trigger day completion once in total. -/
theorem handleSegmentComplete_idempotent_witness :
    handleSegmentComplete daySingle25 0 ⟨SegType.work, 25⟩ [0] envOvertime =
      { logged := [0], writtenEntries := [], dayCompletionCalls := 0
        loggingError := false } ∧
    (handleSegmentComplete daySingle25 0 ⟨SegType.work, 25⟩ [] envOvertime).writtenEntries.length +
      (handleSegmentComplete daySingle25 0 ⟨SegType.work, 25⟩
        (handleSegmentComplete daySingle25 0 ⟨SegType.work, 25⟩ [] envOvertime).logged
        envOvertime).writtenEntries.length ≤ 1 ∧
    (handleSegmentComplete daySingle25 0 ⟨SegType.work, 25⟩ [] envOvertime).dayCompletionCalls +
      (handleSegmentComplete daySingle25 0 ⟨SegType.work, 25⟩
        (handleSegmentComplete daySingle25 0 ⟨SegType.work, 25⟩ [] envOvertime).logged
        envOvertime).dayCompletionCalls ≤ 1 :=
  ⟨(handleSegmentComplete_idempotent daySingle25 0 ⟨SegType.work, 25⟩ [0]
      envOvertime envOvertime).2.1 (by decide),
    (handleSegmentComplete_idempotent daySingle25 0 ⟨SegType.work, 25⟩ []
      envOvertime envOvertime).1.1,
    (handleSegmentComplete_idempotent daySingle25 0 ⟨SegType.work, 25⟩ []
      envOvertime envOvertime).1.2⟩

/-! ## C8 — schedule generator -/

/-- `getTotalWorkMinutes` distributes over list concatenation. -/
lemma getTotalWorkMinutes_append (l1 l2 : List FocusSegment) :
    getTotalWorkMinutes (l1 ++ l2) = getTotalWorkMinutes l1 + getTotalWorkMinutes l2 := by
  simp [getTotalWorkMinutes, List.filter_append]

/-- `getTotalWorkMinutes` of a flattened list of chunks is the sum of the
chunks' work minutes. -/
lemma getTotalWorkMinutes_flatten (L : List (List FocusSegment)) :
    getTotalWorkMinutes L.flatten = (L.map getTotalWorkMinutes).sum := by
  induction L with
  | nil => simp [getTotalWorkMinutes]
  | cons a L ih => simp [List.flatten_cons, getTotalWorkMinutes_append, ih]

/-- Work minutes of one work-plus-optional-break chunk. -/
lemma getTotalWorkMinutes_chunk (w : Nat) (c : Prop) [Decidable c] :
    getTotalWorkMinutes
      (FocusSegment.mk SegType.work w :: (if c then [⟨SegType.brk, 5⟩] else [])) = w := by
  by_cases h : c <;> simp [getTotalWorkMinutes, h]

/-- Sum of the balanced distribution: `remainder` segments get `base + 1`,
the rest get `base`. -/
lemma sum_balanced_range (N rem base : Nat) :
    ((List.range N).map (fun i => if i < rem then base + 1 else base)).sum =
      base * N + min rem N := by
  induction N with
  | zero => simp
  | succ n ih =>
      rw [List.range_succ, List.map_append, List.sum_append, ih]
      simp only [List.map_cons, List.map_nil, List.sum_cons, List.sum_nil]
      by_cases h : n < rem
      · rw [if_pos h, min_eq_right (by omega : (n : Nat) ≤ rem),
          min_eq_right (by omega : n + 1 ≤ rem), Nat.mul_succ]
        omega
      · rw [if_neg h, min_eq_left (by omega : rem ≤ n),
          min_eq_left (by omega : rem ≤ n + 1), Nat.mul_succ]
        omega

/-- C8: for every positive daily target, the work minutes of the generated
segment list sum exactly to the target; targets below 20 minutes give a
single work segment with no breaks, and targets of 20 minutes or more are
split evenly (each work segment gets `base` or `base + 1` minutes) with
every break lasting exactly 5 minutes. -/
theorem buildPomodoroSegmentsForDay_spec (total : Nat) (htotal : 1 ≤ total) :
    getTotalWorkMinutes (buildPomodoroSegmentsForDay total) = total ∧
    (total < 20 → buildPomodoroSegmentsForDay total = [⟨SegType.work, total⟩]) ∧
    (20 ≤ total → ∀ s ∈ buildPomodoroSegmentsForDay total,
      (s.type = SegType.brk → s.minutes = 5) ∧
      (s.type = SegType.work →
        s.minutes = total / (max 1 ((total + 24) / 25)) ∨
        s.minutes = total / (max 1 ((total + 24) / 25)) + 1)) := by
  by_cases h : total < 20
  · refine ⟨?_, fun _ => ?_, fun h20 => absurd h20 (by omega)⟩
    · simp [buildPomodoroSegmentsForDay, h, getTotalWorkMinutes]
    · simp [buildPomodoroSegmentsForDay, h]
  · have hN : 1 ≤ max 1 ((total + 24) / 25) := le_max_left 1 _
    refine ⟨?_, fun hlt => absurd hlt h, fun _ s hs => ?_⟩
    · rw [buildPomodoroSegmentsForDay, if_neg h]
      rw [getTotalWorkMinutes_flatten, List.map_map]
      have hmap : ((List.range (max 1 ((total + 24) / 25))).map
          (getTotalWorkMinutes ∘ fun i =>
            FocusSegment.mk SegType.work
                (if i < total % max 1 ((total + 24) / 25)
                  then total / max 1 ((total + 24) / 25) + 1
                  else total / max 1 ((total + 24) / 25)) ::
              (if i < max 1 ((total + 24) / 25) - 1 then [⟨SegType.brk, 5⟩] else []))) =
          (List.range (max 1 ((total + 24) / 25))).map
            (fun i => if i < total % max 1 ((total + 24) / 25)
              then total / max 1 ((total + 24) / 25) + 1
              else total / max 1 ((total + 24) / 25)) := by
        apply List.map_congr_left
        intro i _
        simp only [Function.comp]
        rw [getTotalWorkMinutes_chunk]
      rw [hmap, sum_balanced_range]
      have hmod : total % max 1 ((total + 24) / 25) < max 1 ((total + 24) / 25) :=
        Nat.mod_lt _ (by omega)
      rw [min_eq_left hmod.le]
      exact Nat.div_add_mod' total _
    · rw [buildPomodoroSegmentsForDay, if_neg h] at hs
      rw [List.mem_flatten] at hs
      obtain ⟨l, hl, hsl⟩ := hs
      rw [List.mem_map] at hl
      obtain ⟨i, _, rfl⟩ := hl
      rcases List.mem_cons.1 hsl with rfl | htail
      · refine ⟨fun hb => by simp at hb, fun _ => ?_⟩
        by_cases hrem : i < total % max 1 ((total + 24) / 25)
        · exact Or.inr (by simp [hrem])
        · exact Or.inl (by simp [hrem])
      · have hbrk : s = FocusSegment.mk SegType.brk 5 := by
          rcases Decidable.em (i < max 1 ((total + 24) / 25) - 1) with hc | hc
          · rw [if_pos hc] at htail
            simpa using htail
          · rw [if_neg hc] at htail
            simp at htail
        subst hbrk
        exact ⟨fun _ => rfl, fun hw => by simp at hw⟩

/-- C8 witness: a 29-minute target yields work segments of 15 and 14 minutes
separated by one 5-minute break, summing to 29; a 10-minute target yields a
single 10-minute work segment. -/
theorem buildPomodoroSegmentsForDay_spec_witness :
    getTotalWorkMinutes (buildPomodoroSegmentsForDay 29) = 29 ∧
    buildPomodoroSegmentsForDay 29 =
      [⟨SegType.work, 15⟩, ⟨SegType.brk, 5⟩, ⟨SegType.work, 14⟩] ∧
    buildPomodoroSegmentsForDay 10 = [⟨SegType.work, 10⟩] := by
  refine ⟨(buildPomodoroSegmentsForDay_spec 29 (by decide)).1, by decide,
    (buildPomodoroSegmentsForDay_spec 10 (by decide)).2.1 (by decide)⟩

/-! ## C4 — the seconds-remaining invariant -/

/-- The initial state satisfies the invariant on a non-empty segment list. -/
lemma timerInv_init (segments : List FocusSegment) (hne : segments ≠ []) :
    TimerInv segments (initState segments) := by
  rcases segments with _ | ⟨a, l⟩
  · exact absurd rfl hne
  · refine ⟨by simp [initState], by simp [initState], ?_⟩
    simp [initState]

/-- Under a non-negative plan, non-negative accumulated seconds and no clock
skew, the follower's recomputed remaining seconds stay within `[0, planned]`. -/
lemma calculateRemainingSeconds_bounds (r : ActiveSessionState) (p now : Int)
    (hp : 0 ≤ p) (hacc : 0 ≤ r.accumulatedSeconds) (hskew : NoSkew r now) :
    0 ≤ calculateRemainingSeconds r p now ∧ calculateRemainingSeconds r p now ≤ p := by
  unfold calculateRemainingSeconds
  split
  · exact ⟨hp, le_refl p⟩
  split
  · exact ⟨le_max_left 0 _, max_le hp (by omega)⟩
  split
  · next t heq =>
      have ht : t ≤ now := hskew t heq
      have hfd : 0 ≤ (now - t).fdiv 1000 := Int.fdiv_nonneg (by omega) (by norm_num)
      exact ⟨le_max_left 0 _, max_le hp (by omega)⟩
  · exact ⟨le_max_left 0 _, max_le hp (by omega)⟩

/-- `startOp` preserves the invariant. -/
lemma timerInv_startOp (segments : List FocusSegment) (s : TimerState)
    (h : TimerInv segments s) : TimerInv segments (startOp segments s).1 := by
  unfold startOp
  split
  · exact h
  · exact h

/-- `pauseOp` preserves the invariant. -/
lemma timerInv_pauseOp (segments : List FocusSegment) (s : TimerState)
    (h : TimerInv segments s) : TimerInv segments (pauseOp s).1 := h

/-- `resumeOp` preserves the invariant. -/
lemma timerInv_resumeOp (segments : List FocusSegment) (s : TimerState)
    (h : TimerInv segments s) : TimerInv segments (resumeOp s).1 := by
  unfold resumeOp
  split
  · exact h
  · exact h

/-- `tick` preserves the invariant. -/
lemma timerInv_tick (segments : List FocusSegment) (s : TimerState)
    (h : TimerInv segments s) : TimerInv segments (tick s) := by
  obtain ⟨h1, h2, h3⟩ := h
  unfold tick
  split
  · refine ⟨h1, ?_, ?_⟩
    · simp only
      split <;> omega
    · simp only
      split
      · positivity
      · omega
  · exact ⟨h1, h2, h3⟩

/-- Projections of the completion effect when a next segment exists. -/
lemma completionEffect_fst_advance (segments : List FocusSegment) (s : TimerState)
    (hg1 : s.isRunning = true) (hg2 : s.secondsRemaining = 0)
    (hlt : s.currentIndex < segments.length - 1) :
    (completionEffect segments s).1.currentIndex = s.currentIndex + 1 ∧
      (completionEffect segments s).1.secondsRemaining =
        ((segments.getD (s.currentIndex + 1) default).minutes : Int) * 60 := by
  simp [completionEffect, hg1, hg2, hlt]

/-- Projections of the completion effect on the last segment. -/
lemma completionEffect_fst_finish (segments : List FocusSegment) (s : TimerState)
    (hg1 : s.isRunning = true) (hg2 : s.secondsRemaining = 0)
    (hlt : ¬ s.currentIndex < segments.length - 1) :
    (completionEffect segments s).1.currentIndex = s.currentIndex ∧
      (completionEffect segments s).1.secondsRemaining = s.secondsRemaining := by
  simp [completionEffect, hg1, hg2, hlt]

/-- The completion effect fires only while running at zero seconds. -/
lemma completionEffect_noop (segments : List FocusSegment) (s : TimerState)
    (hg : ¬(s.isRunning = true ∧ s.secondsRemaining = 0)) :
    (completionEffect segments s).1 = s := by
  simp [completionEffect, hg]

/-- The completion effect preserves the invariant. -/
lemma timerInv_completionEffect (segments : List FocusSegment) (s : TimerState)
    (h : TimerInv segments s) : TimerInv segments (completionEffect segments s).1 := by
  obtain ⟨h1, h2, h3⟩ := h
  by_cases hg : s.isRunning = true ∧ s.secondsRemaining = 0
  · by_cases hlt : s.currentIndex < segments.length - 1
    · obtain ⟨he1, he2⟩ := completionEffect_fst_advance segments s hg.1 hg.2 hlt
      refine ⟨?_, ?_, ?_⟩
      · rw [he1]; omega
      · rw [he2]; positivity
      · rw [he2, he1]
    · obtain ⟨he1, he2⟩ := completionEffect_fst_finish segments s hg.1 hg.2 hlt
      exact ⟨by rw [he1]; exact h1, by rw [he2]; exact h2, by rw [he2, he1]; exact h3⟩
  · rw [completionEffect_noop segments s hg]
    exact ⟨h1, h2, h3⟩

/-- Projections of `skipSegment` when a next segment exists. -/
lemma skipSegment_fst_advance (segments : List FocusSegment) (s : TimerState)
    (hfin : s.isFinished = false) (hlt : s.currentIndex < segments.length - 1) :
    (skipSegment segments s).1.currentIndex = s.currentIndex + 1 ∧
      (skipSegment segments s).1.secondsRemaining =
        ((segments.getD (s.currentIndex + 1) default).minutes : Int) * 60 := by
  by_cases hmem : s.currentIndex ∈ s.completedSegments <;>
    simp [skipSegment, hfin, hlt, hmem]

/-- Projections of `skipSegment` on the last segment. -/
lemma skipSegment_fst_finish (segments : List FocusSegment) (s : TimerState)
    (hfin : s.isFinished = false) (hlt : ¬ s.currentIndex < segments.length - 1) :
    (skipSegment segments s).1.currentIndex = s.currentIndex ∧
      (skipSegment segments s).1.secondsRemaining = s.secondsRemaining := by
  by_cases hmem : s.currentIndex ∈ s.completedSegments <;>
    simp [skipSegment, hfin, hlt, hmem]

/-- `skipSegment` of a finished state is a no-op. -/
lemma skipSegment_noop (segments : List FocusSegment) (s : TimerState)
    (hfin : s.isFinished = true) : (skipSegment segments s).1 = s := by
  simp [skipSegment, hfin]

/-- `skipSegment` preserves the invariant. -/
lemma timerInv_skipSegment (segments : List FocusSegment) (s : TimerState)
    (h : TimerInv segments s) : TimerInv segments (skipSegment segments s).1 := by
  obtain ⟨h1, h2, h3⟩ := h
  by_cases hfin : s.isFinished = true
  · rw [skipSegment_noop segments s hfin]
    exact ⟨h1, h2, h3⟩
  · have hfin' : s.isFinished = false := by
      cases hb : s.isFinished
      · rfl
      · exact absurd hb hfin
    by_cases hlt : s.currentIndex < segments.length - 1
    · obtain ⟨he1, he2⟩ := skipSegment_fst_advance segments s hfin' hlt
      refine ⟨?_, ?_, ?_⟩
      · rw [he1]; omega
      · rw [he2]; positivity
      · rw [he2, he1]
    · obtain ⟨he1, he2⟩ := skipSegment_fst_finish segments s hfin' hlt
      exact ⟨by rw [he1]; exact h1, by rw [he2]; exact h2, by rw [he2, he1]; exact h3⟩

/-- A skew-free external update of a same-day record establishes the
invariant outright. -/
lemma timerInv_externalUpdate (segments : List FocusSegment) (s : TimerState)
    (r : ActiveSessionState) (now : Int) (hr : RecordForDay segments r)
    (hskew : NoSkew r now) : TimerInv segments (externalUpdate r now s) := by
  obtain ⟨hidx, hmin, hacc⟩ := hr
  have hb := calculateRemainingSeconds_bounds r ((r.segmentPlannedMinutes : Int) * 60) now
    (by positivity) hacc hskew
  refine ⟨hidx, hb.1, ?_⟩
  show calculateRemainingSeconds r ((r.segmentPlannedMinutes : Int) * 60) now ≤
    ((segments.getD r.segmentIndex default).minutes : Int) * 60
  rw [← hmin]
  exact hb.2

/-- C4 counterexample: the claim as stated fails.  On the single 25-minute
day, one external-update step with a running record of this same day whose
`startedAt` lies 5 seconds in the observer's future (cross-device clock
skew) is reachable and yields `secondsRemaining = 1505 > 1500 =
segments[currentIndex].minutes*60`. -/
theorem timer_invariant_cex :
    Reachable daySingle25
      (applyAct daySingle25 (Act.external recSkewedStart 0) (initState daySingle25)) ∧
    (applyAct daySingle25 (Act.external recSkewedStart 0)
        (initState daySingle25)).secondsRemaining = 1505 ∧
    ¬((applyAct daySingle25 (Act.external recSkewedStart 0)
          (initState daySingle25)).secondsRemaining ≤
        ((daySingle25.getD (applyAct daySingle25 (Act.external recSkewedStart 0)
            (initState daySingle25)).currentIndex default).minutes : Int) * 60) :=
  ⟨Reachable.step_external recSkewedStart 0 Reachable.init (by decide),
    by decide, by decide⟩

/-- C4 (amended): for every state reachable from the initial state of a
non-empty segment list via start, pause, resume, reset, skip, tick and
external updates whose records belong to this day and whose `startedAt` does
not postdate the observing clock, the invariant
`0 ≤ secondsRemaining ≤ segments[currentIndex].minutes*60` holds (with
`currentIndex` in range). -/
theorem timer_invariant_reachable (segments : List FocusSegment) (hne : segments ≠ [])
    (s : TimerState) (hs : ReachableSync segments s) : TimerInv segments s := by
  induction hs with
  | init => exact timerInv_init segments hne
  | step_start _ ih => exact timerInv_startOp segments _ ih
  | step_pause _ ih => exact timerInv_pauseOp segments _ ih
  | step_resume _ ih => exact timerInv_resumeOp segments _ ih
  | step_reset _ _ => exact timerInv_init segments hne
  | step_tick _ ih => exact timerInv_tick segments _ ih
  | step_complete _ ih => exact timerInv_completionEffect segments _ ih
  | step_skip _ ih => exact timerInv_skipSegment segments _ ih
  | step_external r now _ hr hskew _ => exact timerInv_externalUpdate segments _ r now hr hskew

/-- C4 witness: on the single 25-minute day, the state after one skew-free
external update (the record started at `T0 = 0`, observed at `T0 + 600`)
is reachable and satisfies the invariant. -/
theorem timer_invariant_reachable_witness :
    TimerInv daySingle25
      (applyAct daySingle25 (Act.external recRunningAtT0 600000) (initState daySingle25)) :=
  timer_invariant_reachable daySingle25 (by decide) _
    (ReachableSync.step_external recRunningAtT0 600000 ReachableSync.init
      (by decide) (by decide))

/-! ## C5 — `completedSegments` only grows -/

/-- C5: no operation other than an explicit reset removes a member from
`completedSegments` — including `goToSegment` and the external-update path
driven by the remote mirror subscription. -/
theorem completedSegments_monotone (segments : List FocusSegment) (a : Act)
    (s : TimerState) (ha : a ≠ Act.reset) (i : Nat)
    (hi : i ∈ s.completedSegments) :
    i ∈ (applyAct segments a s).completedSegments := by
  cases a with
  | start =>
      simp only [applyAct, startOp]
      split
      · exact hi
      · exact hi
  | pause => exact hi
  | resume =>
      simp only [applyAct, resumeOp]
      split
      · exact hi
      · exact hi
  | reset => exact absurd rfl ha
  | tick =>
      simp only [applyAct, tick]
      split
      · exact hi
      · exact hi
  | complete =>
      simp only [applyAct, completionEffect]
      split
      · split
        · exact List.mem_append_left _ hi
        · exact List.mem_append_left _ hi
      · exact hi
  | skip =>
      simp only [applyAct, skipSegment]
      split
      · exact hi
      · split <;> split <;>
          first
            | exact hi
            | exact List.mem_append_left _ hi
  | goTo idx =>
      simp only [applyAct, goToSegment]
      split
      · exact hi
      · exact hi
  | external r now => exact hi

/-- C5 witness: a tick on a state with segment 0 completed keeps 0 in
`completedSegments`. -/
theorem completedSegments_monotone_witness :
    0 ∈ (applyAct daySingle25 Act.tick
      { initState daySingle25 with completedSegments := [0] }).completedSegments :=
  completedSegments_monotone daySingle25 Act.tick
    { initState daySingle25 with completedSegments := [0] }
    (by intro hcon; cases hcon) 0 (by decide)

end Focus180
